import Mathlib

/-!
Verification development for a small recipe-management HTTP API
(Express + Mongoose, files src/server.js and src/unnamed/part_000).

The API exposes four operations over a single recipe collection:
list (GET /api/recipes, sorted ascending by the numeric position field),
create (POST /api/recipes, validated), update (PUT /api/recipes/:id,
validated), and reorder (POST /api/recipes/reorder, a bulk positional
update that sets each listed recipe's position to its 1-based index in
the submitted id sequence).

The embedding below models request bodies as JSON-like values, the
validation chain from the express-validator rule list, the Mongoose
document store as a list of records in insertion order (ids are modelled
as opaque naturals, as the spec treats them as opaque identifiers), and
the store sort as a stable insertion sort on the position key, matching
the spec's tie-break-by-insertion-order reading of the store sort.
-/

/-- A JSON-like value as carried in a request body field.  Objects are not
modelled; none of the verified properties concern object-valued fields. -/
inductive JVal where
  | jnull : JVal
  | jbool : Bool → JVal
  | jnum : ℚ → JVal
  | jstr : String → JVal
  | jarr : List JVal → JVal

/-- Rendering of a rational used when a numeric field is coerced to a string.
Only the facts that it is injective-free of use and always nonempty matter to
the development; the exact digits never do. -/
def ratStr (q : ℚ) : String :=
  toString q.num ++ "d" ++ toString q.den

mutual

/-- Coercion of a JSON value to a string, as performed by the
express-validator sanitizer/validator chain before string checks
(null and missing become the empty string; arrays join with commas). -/
def jsStr : JVal → String
  | .jnull => ""
  | .jbool b => cond b "true" "false"
  | .jnum q => ratStr q
  | .jstr s => s
  | .jarr xs => jsStrJoin xs

/-- Comma-joined rendering of a list of JSON values. -/
def jsStrJoin : List JVal → String
  | [] => ""
  | [v] => jsStr v
  | v :: vs => jsStr v ++ "," ++ jsStrJoin vs

end

/-- String view of an optional body field (missing fields read as ""). -/
def jsStrOpt : Option JVal → String
  | none => ""
  | some v => jsStr v

/-- A request body for the recipe endpoints: each schema field is either
absent or holds a JSON value.  From src/server.js lines 26-37. -/
structure Body where
  name : Option JVal
  cuisine : Option JVal
  instructions : Option JVal
  ingredients : Option JVal
  image : Option JVal
  prepTimeMinutes : Option JVal
  cookTimeMinutes : Option JVal
  servings : Option JVal
  tags : Option JVal
  position : Option JVal

/-- Whitespace as stripped by the trim sanitizer (space, tab, line feed,
carriage return). -/
def isWsChar (c : Char) : Bool :=
  c.toNat == 32 || c.toNat == 9 || c.toNat == 10 || c.toNat == 13

/-- The trim sanitizer: strip leading and trailing whitespace. -/
def trimStr (s : String) : String :=
  ⟨((s.data.dropWhile isWsChar).reverse.dropWhile isWsChar).reverse⟩

/-- Whether p occurs at the start of s. -/
def strStarts (s p : String) : Bool :=
  p.data.isPrefixOf s.data

/-- Whether s contains a space. -/
def hasSpace (s : String) : Bool :=
  s.data.any (fun c => c.toNat == 32)

/-- Check for the trim().notEmpty() validator chain used for name, cuisine
and instructions (src/server.js lines 56-58). -/
def checkNotEmptyTrim (v : Option JVal) : Bool :=
  !(trimStr (jsStrOpt v) == "")

/-- Modelled from the spec: the external validator.js isURL predicate is not
part of the repository; it is approximated as a scheme-qualified string with
a nonempty remainder and no spaces.  The development never depends on which
particular strings are well-formed URLs, only on the predicate being applied
to the trimmed image field. -/
def wellFormedURL (s : String) : Bool :=
  ((strStarts s "http://" && decide (7 < s.length)) ||
    (strStarts s "https://" && decide (8 < s.length))) &&
  !(hasSpace s)

/-- Check for the trim().isURL() validator chain used for image
(src/server.js line 60). -/
def checkURLTrim (v : Option JVal) : Bool :=
  wellFormedURL (trimStr (jsStrOpt v))

/-- Check for the isArray with min 1 validator used for ingredients
(src/server.js line 59). -/
def checkIsArrayMin1 (v : Option JVal) : Bool :=
  match v with
  | some (.jarr xs) => decide (1 ≤ xs.length)
  | _ => false

/-- Check for the isInt with min 1 validator used for the three numeric
fields (src/server.js lines 61-63): an integral number at least 1, or a
string parsing as an integer at least 1. -/
def checkIntMin1 (v : Option JVal) : Bool :=
  match v with
  | some (.jnum q) => (q.den == 1) && decide ((1 : ℚ) ≤ q)
  | some (.jstr s) =>
    match s.toInt? with
    | some n => decide ((1 : ℤ) ≤ n)
    | none => false
  | _ => false

/-- One express-validator rule: the body field it concerns, the message
attached with withMessage, and the boolean check. -/
structure Rule where
  field : String
  msg : String
  check : Body → Bool

/-- A field-level violation as produced by validationResult(req).array():
the offending field and its human-readable message. -/
structure FieldError where
  field : String
  msg : String
deriving DecidableEq

/-- The validator list of the create and update routes, in source order
(src/server.js lines 55-64 and 82-91; the two lists are identical). -/
def recipeRules : List Rule :=
  [⟨"name", "Recipe name is required", fun b => checkNotEmptyTrim b.name⟩,
   ⟨"cuisine", "Cuisine is required", fun b => checkNotEmptyTrim b.cuisine⟩,
   ⟨"instructions", "Instructions are required",
     fun b => checkNotEmptyTrim b.instructions⟩,
   ⟨"ingredients", "At least one ingredient is required",
     fun b => checkIsArrayMin1 b.ingredients⟩,
   ⟨"image", "Valid image URL is required", fun b => checkURLTrim b.image⟩,
   ⟨"prepTimeMinutes", "Valid prep time is required",
     fun b => checkIntMin1 b.prepTimeMinutes⟩,
   ⟨"cookTimeMinutes", "Valid cook time is required",
     fun b => checkIntMin1 b.cookTimeMinutes⟩,
   ⟨"servings", "Valid servings number is required",
     fun b => checkIntMin1 b.servings⟩]

/-- Sequential execution of a validator list: every rule runs (no
short-circuit) and each failing rule appends one error, in rule order. -/
def runRules : List Rule → Body → List FieldError
  | [], _ => []
  | r :: rs, b =>
    if r.check b then runRules rs b
    else ⟨r.field, r.msg⟩ :: runRules rs b

/-- The full validation layer shared by create and update. -/
def validateRecipe (b : Body) : List FieldError :=
  runRules recipeRules b

/-- A stored recipe record.  The id is assigned by the store and opaque;
position is the numeric sort key (src/server.js lines 26-37). -/
structure Recipe where
  id : Nat
  name : String
  cuisine : String
  instructions : String
  ingredients : List String
  image : String
  prepTimeMinutes : ℚ
  cookTimeMinutes : ℚ
  servings : ℚ
  tags : List String
  position : ℚ
deriving DecidableEq

/-- The validated and cast field content of a recipe, before the store
assigns an id and a position. -/
structure RecipeData where
  name : String
  cuisine : String
  instructions : String
  ingredients : List String
  image : String
  prepTimeMinutes : ℚ
  cookTimeMinutes : ℚ
  servings : ℚ
  tags : List String
deriving DecidableEq

/-- The document store: records in insertion order plus the next fresh id.
Insertion order is the store order used to break position ties. -/
structure Store where
  recipes : List Recipe
  nextId : Nat
deriving DecidableEq

/-- Comparison by position, the sort key of the list endpoint. -/
def posLe (a b : Recipe) : Prop :=
  a.position ≤ b.position

/-- Strict comparison by position. -/
def posLt (a b : Recipe) : Prop :=
  a.position < b.position

instance : DecidableRel posLe :=
  fun a b => inferInstanceAs (Decidable (a.position ≤ b.position))

instance : DecidableRel posLt :=
  fun a b => inferInstanceAs (Decidable (a.position < b.position))

instance : IsTotal Recipe posLe :=
  ⟨fun a b => le_total a.position b.position⟩

instance : IsTrans Recipe posLe :=
  ⟨fun _ _ _ h1 h2 => le_trans h1 h2⟩

instance : IsAntisymm Recipe posLt :=
  ⟨fun _ _ h1 h2 => absurd (lt_trans h1 h2) (lt_irrefl _)⟩

/-- GET /api/recipes: all records sorted ascending by position, ties broken
by store (insertion) order, modelled by a stable sort
(src/server.js line 46: Recipe.find().sort with position ascending). -/
def listOrdered (st : Store) : List Recipe :=
  st.recipes.insertionSort posLe

/-- Whether some record with the given id is present. -/
def Store.hasId (st : Store) (i : Nat) : Bool :=
  st.recipes.any (fun r => r.id == i)

/-- One updateOne of the reorder bulkWrite: set the position of the first
record matching the id (src/server.js lines 121-126). -/
def updateOnePos : List Recipe → Nat → ℚ → List Recipe
  | [], _, _ => []
  | r :: rs, i, p =>
    if r.id = i then { r with position := p } :: rs
    else r :: updateOnePos rs i p

/-- Sequential application of the reorder bulkWrite: the id at (0-based)
index j receives position k + j, so with k = 1 each id receives its
1-based index (src/server.js lines 120-128). -/
def reorderAux : List Recipe → List Nat → Nat → List Recipe
  | rs, [], _ => rs
  | rs, i :: rest, k => reorderAux (updateOnePos rs i (k : ℚ)) rest (k + 1)

/-- The reorder store operation: positions become 1-based indices in the
submitted sequence; unmatched ids update nothing. -/
def Store.reorder (st : Store) (ids : List Nat) : Store :=
  { st with recipes := reorderAux st.recipes ids 1 }

/-- Mongoose cast of a body value to a schema String field. -/
def castString : JVal → Option String
  | .jstr s => some s
  | .jnum q => some (ratStr q)
  | .jbool b => some (cond b "true" "false")
  | _ => none

/-- Mongoose cast of a body value to a schema Number field (numeric strings
are accepted). -/
def castNumber : JVal → Option ℚ
  | .jnum q => some q
  | .jstr s =>
    match s.toInt? with
    | some n => some (n : ℚ)
    | none => none
  | _ => none

/-- Elementwise cast of a JSON array to a list of schema strings. -/
def castAll : List JVal → Option (List String)
  | [] => some []
  | v :: vs =>
    match castString v, castAll vs with
    | some s, some ss => some (s :: ss)
    | _, _ => none

/-- Mongoose cast of a body value to a schema array-of-String field. -/
def castStringList : JVal → Option (List String)
  | .jarr xs => castAll xs
  | _ => none

/-- Cast of the optional tags field, with the schema default of [] when the
field is absent (src/server.js line 35). -/
def castTags (v : Option JVal) : Option (List String) :=
  match v with
  | none => some []
  | some t => castStringList t

/-- Cast of the optional client-supplied position field: absent stays
absent (so the schema default applies), a present numeric value is kept
(src/server.js line 36: the default only fills a missing field). -/
def castPos (v : Option JVal) : Option (Option ℚ) :=
  match v with
  | none => some none
  | some w => (castNumber w).map some

/-- Cast of a required field: the field must be present and its value must
cast; a missing required field is a document-level error on save. -/
def castField {α : Type} (f : JVal → Option α) (v : Option JVal) : Option α :=
  match v with
  | none => none
  | some w => f w

/-- Mongoose document construction from a request body, as performed by
Recipe.create(req.body) and by findByIdAndUpdate with the body as update:
every required field must be present and castable, and a failed cast is a
storage-level error.  Returns the cast field data together with the
client-supplied position, when one was sent. -/
def castBody (b : Body) : Option (RecipeData × Option ℚ) :=
  match castField castString b.name, castField castString b.cuisine,
      castField castString b.instructions,
      castField castStringList b.ingredients, castField castString b.image,
      castField castNumber b.prepTimeMinutes,
      castField castNumber b.cookTimeMinutes,
      castField castNumber b.servings, castTags b.tags, castPos b.position with
  | some n, some c, some ins, some ing, some img, some p, some ck, some sv,
      some tg, some po => some (⟨n, c, ins, ing, img, p, ck, sv, tg⟩, po)
  | _, _, _, _, _, _, _, _, _, _ => none

/-- Assembly of a stored record from cast data, a fresh id and a position. -/
def mkRecipe (i : Nat) (d : RecipeData) (pos : ℚ) : Recipe :=
  ⟨i, d.name, d.cuisine, d.instructions, d.ingredients, d.image,
    d.prepTimeMinutes, d.cookTimeMinutes, d.servings, d.tags, pos⟩

/-- Outcome of the create route: 400 with the violation list, 201 with the
new record, or 500 on a storage failure. -/
inductive CreateRes where
  | invalid : List FieldError → CreateRes
  | created : Recipe → CreateRes
  | storageError : CreateRes
deriving DecidableEq

/-- HTTP status of a create outcome (src/server.js lines 65-77). -/
def createStatus : CreateRes → Nat
  | .invalid _ => 400
  | .created _ => 201
  | .storageError => 500

/-- POST /api/recipes (src/server.js lines 54-78): validate; on violations
respond 400 with the collected errors; otherwise cast and persist the body,
defaulting position to the current clock value now (the Date.now schema
default) when the client sent none. -/
def postRecipes (st : Store) (b : Body) (now : ℚ) : CreateRes × Store :=
  if validateRecipe b = [] then
    match castBody b with
    | none => (.storageError, st)
    | some (d, po) =>
      let r := mkRecipe st.nextId d (po.getD now)
      (.created r, ⟨st.recipes ++ [r], st.nextId + 1⟩)
  else (.invalid (validateRecipe b), st)

/-- Outcome of the update route: 400, 404, 200 with the updated record, or
500 on a storage failure. -/
inductive UpdateRes where
  | invalid : List FieldError → UpdateRes
  | notFound : UpdateRes
  | updated : Recipe → UpdateRes
  | storageError : UpdateRes
deriving DecidableEq

/-- HTTP status of an update outcome (src/server.js lines 92-109). -/
def updateStatus : UpdateRes → Nat
  | .invalid _ => 400
  | .notFound => 404
  | .updated _ => 200
  | .storageError => 500

/-- Replacement of the mutable fields of a record by cast update data,
keeping the id, and keeping the old position when the client sent none
(findByIdAndUpdate applies the body as a field-wise set). -/
def applyUpdate (d : RecipeData) (po : Option ℚ) (r : Recipe) : Recipe :=
  ⟨r.id, d.name, d.cuisine, d.instructions, d.ingredients, d.image,
    d.prepTimeMinutes, d.cookTimeMinutes, d.servings, d.tags,
    po.getD r.position⟩

/-- PUT /api/recipes/:id (src/server.js lines 81-110): validate; on
violations respond 400; otherwise run findByIdAndUpdate, responding 404
when no record matches the id and 200 with the updated record otherwise;
a failed cast of the body is a 500 storage error. -/
def putRecipes (st : Store) (i : Nat) (b : Body) : UpdateRes × Store :=
  if validateRecipe b = [] then
    match castBody b with
    | none => (.storageError, st)
    | some (d, po) =>
      match st.recipes.find? (fun r => r.id == i) with
      | none => (.notFound, st)
      | some r =>
        (.updated (applyUpdate d po r),
          ⟨st.recipes.map (fun x => if x.id = i then applyUpdate d po x else x),
            st.nextId⟩)
  else (.invalid (validateRecipe b), st)

/-- Outcome of the reorder route: 400 on a non-array payload, otherwise
200 with a confirmation message (src/server.js lines 113-133). -/
inductive ReorderRes where
  | badRequest : ReorderRes
  | reordered : ReorderRes
deriving DecidableEq

/-- HTTP status of a reorder outcome. -/
def reorderStatus : ReorderRes → Nat
  | .badRequest => 400
  | .reordered => 200

/-- POST /api/recipes/reorder: the body must carry an orderedIds array
(modelled as an optional list of opaque ids; none models a missing or
non-array field); ids are applied in order by the bulk write. -/
def postReorder (st : Store) (orderedIds : Option (List Nat)) :
    ReorderRes × Store :=
  match orderedIds with
  | none => (.badRequest, st)
  | some ids => (.reordered, st.reorder ids)

/-- Shape of a 500 response body: a message, and possibly the underlying
error detail. -/
structure ErrorBody where
  message : String
  error : Option String
deriving DecidableEq

/-- The 500 response of the list route in src/server.js line 49: a bare
message with no underlying error detail. -/
def listCatchMain (_emsg : String) : ErrorBody :=
  ⟨"Server error", none⟩

/-- The 500 response of the list route in src/unnamed/part_000 lines 50-56:
a message together with the underlying error detail. -/
def listCatchAlt (emsg : String) : ErrorBody :=
  ⟨"Failed to fetch recipes", some emsg⟩

/-- A sequence of create requests, each with the clock value that
Date.now would supply for its schema default. -/
def postMany (st : Store) : List (Body × ℚ) → Store
  | [] => st
  | (b, t) :: rest => postMany (postRecipes st b t).2 rest

/-- Projection of a record onto every field other than position, used to
state that reorder touches nothing but position. -/
def recipeContent (r : Recipe) :
    Nat × String × String × String × List String × String × ℚ × ℚ × ℚ ×
      List String :=
  (r.id, r.name, r.cuisine, r.instructions, r.ingredients, r.image,
    r.prepTimeMinutes, r.cookTimeMinutes, r.servings, r.tags)

/-- A well-formed create request body: every field passes its validator and
casts to its schema type (the worked example of the spec, with ingredients
a and b). -/
def okBody : Body :=
  ⟨some (.jstr "A"), some (.jstr "Thai"), some (.jstr "x"),
    some (.jarr [.jstr "a", .jstr "b"]), some (.jstr "http://x.com/i.jpg"),
    some (.jnum 5), some (.jnum 5), some (.jnum 2), none, none⟩

/-- The cast document content of okBody. -/
def dOk : RecipeData :=
  ⟨"A", "Thai", "x", ["a", "b"], "http://x.com/i.jpg", 5, 5, 2, []⟩

/-- The invalid example body of the spec: empty name, everything else
well-formed. -/
def exBadBody : Body :=
  ⟨some (.jstr ""), some (.jstr "Thai"), some (.jstr "x"),
    some (.jarr [.jstr "y"]), some (.jstr "http://x.com/i.jpg"),
    some (.jnum 5), some (.jnum 5), some (.jnum 2), none, none⟩

/-- A body violating two independent rules: blank name and zero servings. -/
def twoBadBody : Body :=
  ⟨some (.jstr " "), some (.jstr "Thai"), some (.jstr "x"),
    some (.jarr [.jstr "y"]), some (.jstr "http://x.com/i.jpg"),
    some (.jnum 5), some (.jnum 5), some (.jnum 0), none, none⟩

/-- okBody with a client-supplied numeric position field. -/
def posBody : Body :=
  { okBody with position := some (.jnum 42) }

/-- Concrete store fixtures. -/
def demoA : Recipe := ⟨0, "A", "c", "i", ["x"], "u", 1, 1, 1, [], 100⟩

/-- Second store fixture. -/
def demoB : Recipe := ⟨1, "B", "c", "i", ["x"], "u", 1, 1, 1, [], 200⟩

/-- Third store fixture. -/
def demoC : Recipe := ⟨2, "C", "c", "i", ["x"], "u", 1, 1, 1, [], 300⟩

/-- A three-recipe store in creation order. -/
def demoStore : Store := ⟨[demoA, demoB, demoC], 3⟩

/-- The empty store. -/
def emptyStore : Store := ⟨[], 0⟩

lemma updateOnePos_map_content (rs : List Recipe) (i : Nat) (p : ℚ) :
    (updateOnePos rs i p).map recipeContent = rs.map recipeContent := by
  induction rs with
  | nil => rfl
  | cons r rest ih =>
    by_cases h : r.id = i
    · simp [updateOnePos, h, recipeContent]
    · simp [updateOnePos, h, ih]

lemma updateOnePos_map_id (rs : List Recipe) (i : Nat) (p : ℚ) :
    (updateOnePos rs i p).map Recipe.id = rs.map Recipe.id := by
  induction rs with
  | nil => rfl
  | cons r rest ih =>
    by_cases h : r.id = i
    · simp [updateOnePos, h]
    · simp [updateOnePos, h, ih]

lemma updateOnePos_eq_map {rs : List Recipe} {i : Nat} (p : ℚ)
    (h : (rs.map Recipe.id).Nodup) :
    updateOnePos rs i p
      = rs.map (fun r => if r.id = i then { r with position := p } else r) := by
  induction rs with
  | nil => rfl
  | cons r rest ih =>
    simp only [List.map_cons, List.nodup_cons] at h
    by_cases hr : r.id = i
    · simp only [updateOnePos, if_pos hr, List.map_cons]
      congr 1
      have hrest : ∀ x ∈ rest,
          (if x.id = i then { x with position := p } else x) = x := by
        intro x hx
        rw [if_neg]
        intro he
        exact h.1 (hr ▸ he ▸ List.mem_map_of_mem Recipe.id hx)
      exact ((List.map_congr_left hrest).trans (List.map_id rest)).symm
    · simp only [updateOnePos, if_neg hr, List.map_cons]
      rw [ih h.2]

lemma reorderAux_eq_map :
    ∀ (ids : List Nat) (rs : List Recipe) (k : Nat), ids.Nodup →
      (rs.map Recipe.id).Nodup →
      reorderAux rs ids k
        = rs.map (fun r =>
            if r.id ∈ ids
            then { r with position := ((k + ids.indexOf r.id : Nat) : ℚ) }
            else r) := by
  intro ids
  induction ids with
  | nil =>
    intro rs k _ _
    simp [reorderAux]
  | cons i rest ih =>
    intro rs k hids hrs
    simp only [List.nodup_cons] at hids
    have hg : (Recipe.id ∘ fun r =>
        if r.id = i then { r with position := (k : ℚ) } else r) = Recipe.id := by
      funext x
      by_cases hx : x.id = i <;> simp [hx]
    have hrs' : ((rs.map (fun r =>
        if r.id = i then { r with position := (k : ℚ) } else r)).map
          Recipe.id).Nodup := by
      rw [List.map_map, hg]
      exact hrs
    have step : reorderAux rs (i :: rest) k
        = reorderAux (rs.map (fun r =>
            if r.id = i then { r with position := (k : ℚ) } else r)) rest
            (k + 1) := by
      rw [reorderAux, updateOnePos_eq_map _ hrs]
    rw [step, ih _ (k + 1) hids.2 hrs', List.map_map]
    apply List.map_congr_left
    intro x _
    by_cases hx : x.id = i
    · have hnotin : x.id ∉ rest := hx ▸ hids.1
      simp only [Function.comp_apply, if_pos hx, if_neg hnotin]
      have : x.id ∈ i :: rest := by
        rw [hx]; exact List.mem_cons_self i rest
      rw [if_pos this, hx, List.indexOf_cons_self]
      norm_num
    · have hii : i ≠ x.id := fun he => hx he.symm
      simp only [Function.comp_apply, if_neg hx]
      by_cases hmem : x.id ∈ rest
      · have hmem' : x.id ∈ i :: rest := List.mem_cons_of_mem i hmem
        rw [if_pos hmem, if_pos hmem', List.indexOf_cons_ne rest hii]
        congr 1
        push_cast [Nat.succ_eq_add_one]
        ring
      · have hmem' : x.id ∉ i :: rest := by
          intro hc
          rcases List.mem_cons.mp hc with hc1 | hc2
          · exact hx hc1
          · exact hmem hc2
        rw [if_neg hmem, if_neg hmem']

lemma reorder_recipes_eq (st : Store) (ids : List Nat) (hids : ids.Nodup)
    (hst : (st.recipes.map Recipe.id).Nodup) :
    (st.reorder ids).recipes
      = st.recipes.map (fun r =>
          if r.id ∈ ids
          then { r with position := ((1 + ids.indexOf r.id : Nat) : ℚ) }
          else r) :=
  reorderAux_eq_map ids st.recipes 1 hids hst

lemma reorderAux_map_id :
    ∀ (ids : List Nat) (rs : List Recipe) (k : Nat),
      (reorderAux rs ids k).map Recipe.id = rs.map Recipe.id := by
  intro ids
  induction ids with
  | nil => intro rs k; rfl
  | cons i rest ih =>
    intro rs k
    rw [reorderAux, ih, updateOnePos_map_id]

lemma reorderAux_map_content :
    ∀ (ids : List Nat) (rs : List Recipe) (k : Nat),
      (reorderAux rs ids k).map recipeContent = rs.map recipeContent := by
  intro ids
  induction ids with
  | nil => intro rs k; rfl
  | cons i rest ih =>
    intro rs k
    rw [reorderAux, ih, updateOnePos_map_content]

lemma reorder_map_id (st : Store) (ids : List Nat) :
    ((st.reorder ids).recipes).map Recipe.id = st.recipes.map Recipe.id :=
  reorderAux_map_id ids st.recipes 1

lemma reorder_map_content (st : Store) (ids : List Nat) :
    ((st.reorder ids).recipes).map recipeContent
      = st.recipes.map recipeContent :=
  reorderAux_map_content ids st.recipes 1

lemma hasId_iff (st : Store) (i : Nat) :
    st.hasId i = true ↔ i ∈ st.recipes.map Recipe.id := by
  simp only [Store.hasId, List.any_eq_true, beq_iff_eq, List.mem_map]

lemma pairwise_indexOf {l : List Nat} (h : l.Nodup) :
    l.Pairwise (fun a b => l.indexOf a < l.indexOf b) := by
  induction l with
  | nil => exact List.Pairwise.nil
  | cons i rest ih =>
    rw [List.nodup_cons] at h
    refine List.Pairwise.cons ?_ ?_
    · intro b hb
      have hbi : b ≠ i := fun he => h.1 (he ▸ hb)
      rw [List.indexOf_cons_self, List.indexOf_cons_ne rest (fun he => hbi he.symm)]
      exact Nat.succ_pos _
    · refine (ih h.2).imp_of_mem ?_
      intro a b ha hb hab
      have hai : i ≠ a := fun he => h.1 (he ▸ ha)
      have hbi : i ≠ b := fun he => h.1 (he ▸ hb)
      rw [List.indexOf_cons_ne rest hai, List.indexOf_cons_ne rest hbi]
      exact Nat.succ_lt_succ hab

lemma pairwise_posLt_of_posLe {l : List Recipe} (h1 : l.Pairwise posLe)
    (h2 : (l.map Recipe.position).Nodup) :
    l.Pairwise posLt := by
  have hne : l.Pairwise (fun a b => a.position ≠ b.position) :=
    List.pairwise_map.mp h2
  exact (h1.and hne).imp fun hab => lt_of_le_of_ne hab.1 hab.2

lemma filterMap_map_id {F : Nat → Option Recipe} :
    ∀ {ns : List Nat}, (∀ i ∈ ns, ∃ r, F i = some r ∧ r.id = i) →
      (ns.filterMap F).map Recipe.id = ns := by
  intro ns
  induction ns with
  | nil => intro _; rfl
  | cons i rest ih =>
    intro h
    obtain ⟨r, hr, hid⟩ := h i (List.mem_cons_self i rest)
    rw [List.filterMap_cons, hr, List.map_cons, hid,
      ih (fun j hj => h j (List.mem_cons_of_mem i hj))]

lemma reorder_filter_map_id (st : Store) (ids : List Nat)
    (hids : ids.Nodup) (hst : (st.recipes.map Recipe.id).Nodup) :
    ((listOrdered (st.reorder ids)).filter
        (fun r => decide (r.id ∈ ids))).map Recipe.id
      = ids.filter (fun i => st.hasId i) := by
  classical
  have hmapid : ((st.reorder ids).recipes).map Recipe.id
      = st.recipes.map Recipe.id := reorder_map_id st ids
  have hst' : (((st.reorder ids).recipes).map Recipe.id).Nodup := by
    rw [hmapid]; exact hst
  have hnodup' : ((st.reorder ids).recipes).Nodup := List.Nodup.of_map _ hst'
  have hchar := reorder_recipes_eq st ids hids hst
  have hposmem : ∀ r ∈ (st.reorder ids).recipes, r.id ∈ ids →
      r.position = ((1 + ids.indexOf r.id : Nat) : ℚ) := by
    intro r hr hrid
    rw [hchar] at hr
    obtain ⟨x, hx, hxr⟩ := List.mem_map.mp hr
    by_cases hxi : x.id ∈ ids
    · rw [if_pos hxi] at hxr
      subst hxr
      simp
    · rw [if_neg hxi] at hxr
      subst hxr
      exact absurd hrid hxi
  have hkept_nodup : (ids.filter (fun i => st.hasId i)).Nodup :=
    List.Nodup.filter _ hids
  have hfind : ∀ i ∈ ids.filter (fun i => st.hasId i),
      ∃ r, ((st.reorder ids).recipes).find? (fun x => x.id == i) = some r ∧
        r.id = i := by
    intro i hi
    have hhas : st.hasId i = true := (List.mem_filter.mp hi).2
    have hmem : i ∈ ((st.reorder ids).recipes).map Recipe.id := by
      rw [hmapid]; exact (hasId_iff st i).mp hhas
    obtain ⟨x, hx, hxi⟩ := List.mem_map.mp hmem
    have hsome : (((st.reorder ids).recipes).find?
        (fun x => x.id == i)).isSome := by
      rw [List.find?_isSome]
      exact ⟨x, hx, by rw [hxi]; exact beq_self_eq_true i⟩
    obtain ⟨r, hr⟩ := Option.isSome_iff_exists.mp hsome
    have hrid0 := List.find?_some hr
    exact ⟨r, hr, beq_iff_eq.mp hrid0⟩
  have hT_mapid : ((ids.filter (fun i => st.hasId i)).filterMap
        (fun i => ((st.reorder ids).recipes).find? (fun x => x.id == i))).map
          Recipe.id
      = ids.filter (fun i => st.hasId i) := filterMap_map_id hfind
  have hT_nodup : ((ids.filter (fun i => st.hasId i)).filterMap
      (fun i => ((st.reorder ids).recipes).find? (fun x => x.id == i))).Nodup := by
    refine List.Nodup.of_map Recipe.id ?_
    rw [hT_mapid]
    exact hkept_nodup
  have hTmem : ∀ r, (r ∈ (ids.filter (fun i => st.hasId i)).filterMap
        (fun i => ((st.reorder ids).recipes).find? (fun x => x.id == i)))
      ↔ r ∈ (st.reorder ids).recipes ∧ r.id ∈ ids := by
    intro r
    constructor
    · intro hr
      obtain ⟨i, hi, hFi⟩ := List.mem_filterMap.mp hr
      refine ⟨List.mem_of_find?_eq_some hFi, ?_⟩
      have hrid' := List.find?_some hFi
      have hrid : r.id = i := beq_iff_eq.mp hrid'
      rw [hrid]
      exact (List.mem_filter.mp hi).1
    · rintro ⟨hr, hrid⟩
      have hha : st.hasId r.id = true := by
        rw [hasId_iff, ← hmapid]
        exact List.mem_map_of_mem Recipe.id hr
      have hik : r.id ∈ ids.filter (fun i => st.hasId i) :=
        List.mem_filter.mpr ⟨hrid, hha⟩
      obtain ⟨r0, hF, hr0id⟩ := hfind _ hik
      have hr0mem : r0 ∈ (st.reorder ids).recipes :=
        List.mem_of_find?_eq_some hF
      have : r0 = r :=
        List.inj_on_of_nodup_map hst' hr0mem hr (by rw [hr0id])
      exact List.mem_filterMap.mpr ⟨r.id, hik, this ▸ hF⟩
  have hfilter_nodup : (((st.reorder ids).recipes).filter
      (fun r => decide (r.id ∈ ids))).Nodup := hnodup'.filter _
  have hperm_T : List.Perm
      ((ids.filter (fun i => st.hasId i)).filterMap
        (fun i => ((st.reorder ids).recipes).find? (fun x => x.id == i)))
      (((st.reorder ids).recipes).filter (fun r => decide (r.id ∈ ids))) := by
    rw [List.perm_ext_iff_of_nodup hT_nodup hfilter_nodup]
    intro r
    rw [hTmem, List.mem_filter]
    simp
  have hperm_LT : List.Perm
      ((listOrdered (st.reorder ids)).filter
        (fun r => decide (r.id ∈ ids)))
      ((ids.filter (fun i => st.hasId i)).filterMap
        (fun i => ((st.reorder ids).recipes).find? (fun x => x.id == i))) :=
    (List.Perm.filter _
      (List.perm_insertionSort posLe (st.reorder ids).recipes)).trans
      hperm_T.symm
  have hpw_kept : (ids.filter (fun i => st.hasId i)).Pairwise
      (fun a b => ids.indexOf a < ids.indexOf b) :=
    List.Pairwise.sublist (List.filter_sublist ids) (pairwise_indexOf hids)
  have hpw_T_idx : ((ids.filter (fun i => st.hasId i)).filterMap
      (fun i => ((st.reorder ids).recipes).find? (fun x => x.id == i))).Pairwise
        (fun a b => ids.indexOf a.id < ids.indexOf b.id) := by
    rw [← hT_mapid] at hpw_kept
    exact (@List.pairwise_map Recipe Nat Recipe.id
      (fun a b => ids.indexOf a < ids.indexOf b) _).mp hpw_kept
  have hpw_T : ((ids.filter (fun i => st.hasId i)).filterMap
      (fun i => ((st.reorder ids).recipes).find? (fun x => x.id == i))).Pairwise
        posLt := by
    refine hpw_T_idx.imp_of_mem ?_
    intro a b ha hb hab
    have ha' := (hTmem a).mp ha
    have hb' := (hTmem b).mp hb
    show a.position < b.position
    rw [hposmem a ha'.1 ha'.2, hposmem b hb'.1 hb'.2]
    exact_mod_cast Nat.add_lt_add_left hab 1
  have hpw_L_le : ((listOrdered (st.reorder ids)).filter
      (fun r => decide (r.id ∈ ids))).Pairwise posLe :=
    List.Pairwise.sublist (List.filter_sublist _)
      (List.sorted_insertionSort posLe (st.reorder ids).recipes)
  have hpos_T_nodup : (((ids.filter (fun i => st.hasId i)).filterMap
      (fun i => ((st.reorder ids).recipes).find?
        (fun x => x.id == i))).map Recipe.position).Nodup := by
    have hplt : List.Pairwise (fun a b : ℚ => a < b)
        (((ids.filter (fun i => st.hasId i)).filterMap
          (fun i => ((st.reorder ids).recipes).find?
            (fun x => x.id == i))).map Recipe.position) :=
      (@List.pairwise_map Recipe ℚ Recipe.position (fun a b => a < b) _).mpr
        hpw_T
    exact hplt.imp ne_of_lt
  have hpos_L_nodup : (((listOrdered (st.reorder ids)).filter
      (fun r => decide (r.id ∈ ids))).map Recipe.position).Nodup :=
    (hperm_LT.map Recipe.position).nodup_iff.mpr hpos_T_nodup
  have hpw_L : ((listOrdered (st.reorder ids)).filter
      (fun r => decide (r.id ∈ ids))).Pairwise posLt :=
    pairwise_posLt_of_posLe hpw_L_le hpos_L_nodup
  have hLT : ((listOrdered (st.reorder ids)).filter
        (fun r => decide (r.id ∈ ids)))
      = ((ids.filter (fun i => st.hasId i)).filterMap
        (fun i => ((st.reorder ids).recipes).find? (fun x => x.id == i))) :=
    List.eq_of_perm_of_sorted hperm_LT hpw_L hpw_T
  rw [hLT, hT_mapid]

lemma runRules_eq_filter (rs : List Rule) (b : Body) :
    runRules rs b
      = (rs.filter (fun r => !(r.check b))).map
          (fun r => (⟨r.field, r.msg⟩ : FieldError)) := by
  induction rs with
  | nil => rfl
  | cons r rest ih =>
    by_cases h : r.check b
    · simp [runRules, h, List.filter_cons, ih]
    · simp [runRules, h, List.filter_cons, ih]

lemma runRules_nil_iff (rs : List Rule) (b : Body) :
    runRules rs b = [] ↔ ∀ r ∈ rs, r.check b = true := by
  rw [runRules_eq_filter, List.map_eq_nil_iff, List.filter_eq_nil_iff]
  constructor
  · intro h r hr
    have := h r hr
    simpa using this
  · intro h r hr
    simp [h r hr]

lemma mem_runRules {rs : List Rule} {b : Body} {r : Rule} (hr : r ∈ rs)
    (hc : r.check b = false) :
    (⟨r.field, r.msg⟩ : FieldError) ∈ runRules rs b := by
  rw [runRules_eq_filter]
  exact List.mem_map_of_mem _ (List.mem_filter.mpr ⟨hr, by rw [hc]; rfl⟩)

lemma castAll_jstr : ∀ xs : List String, castAll (xs.map JVal.jstr) = some xs := by
  intro xs
  induction xs with
  | nil => rfl
  | cons x rest ih => simp [castAll, castString, ih]

lemma castBody_parts {b : Body} {d : RecipeData} {po : Option ℚ}
    (h : castBody b = some (d, po)) :
    castField castStringList b.ingredients = some d.ingredients ∧
      castPos b.position = some po := by
  unfold castBody at h
  split at h
  · simp only [Option.some.injEq, Prod.mk.injEq] at h
    obtain ⟨hd, hpo⟩ := h
    subst hd
    subst hpo
    exact ⟨by assumption, by assumption⟩
  · exact absurd h (by simp)

lemma listOrdered_eq_self {st : Store} (h : st.recipes.Pairwise posLe) :
    listOrdered st = st.recipes :=
  List.Sorted.insertionSort_eq h

lemma find?_listOrdered {st : Store} {r : Recipe}
    (hst : (st.recipes.map Recipe.id).Nodup) (hr : r ∈ st.recipes) :
    (listOrdered st).find? (fun x => x.id == r.id) = some r := by
  have hsome : ((listOrdered st).find? (fun x => x.id == r.id)).isSome := by
    rw [List.find?_isSome]
    exact ⟨r, (List.perm_insertionSort posLe st.recipes).mem_iff.mpr hr,
      beq_self_eq_true r.id⟩
  obtain ⟨r0, hr0⟩ := Option.isSome_iff_exists.mp hsome
  have hr0mem : r0 ∈ st.recipes :=
    (List.perm_insertionSort posLe st.recipes).mem_iff.mp
      (List.mem_of_find?_eq_some hr0)
  have hid0 := List.find?_some hr0
  have hr0id : r0.id = r.id := beq_iff_eq.mp hid0
  rw [hr0, List.inj_on_of_nodup_map hst hr0mem hr hr0id]

lemma postMany_valid :
    ∀ (items : List (Body × ℚ)) (st : Store),
      (∀ x ∈ items, validateRecipe x.1 = [] ∧
        ∃ d, castBody x.1 = some (d, none)) →
      ∃ new : List Recipe,
        (postMany st items).recipes = st.recipes ++ new ∧
        new.map Recipe.position = items.map Prod.snd := by
  intro items
  induction items with
  | nil => intro st _; exact ⟨[], by simp [postMany], rfl⟩
  | cons x rest ih =>
    intro st hall
    obtain ⟨b, t⟩ := x
    obtain ⟨hv, d, hc⟩ := hall (b, t) (List.mem_cons_self (b, t) rest)
    have hstep : (postRecipes st b t).2
        = ⟨st.recipes ++ [mkRecipe st.nextId d t], st.nextId + 1⟩ := by
      simp [postRecipes, hv, hc]
    obtain ⟨new, hrec, hpos⟩ := ih ((postRecipes st b t).2)
      (fun y hy => hall y (List.mem_cons_of_mem (b, t) hy))
    refine ⟨mkRecipe st.nextId d t :: new, ?_, ?_⟩
    · show (postMany (postRecipes st b t).2 rest).recipes = _
      rw [hrec, hstep]
      simp
    · simp only [List.map_cons, hpos, mkRecipe]

lemma reorder_position_mem (st : Store) (ids : List Nat)
    (hids : ids.Nodup) (hst : (st.recipes.map Recipe.id).Nodup) :
    ∀ r ∈ (st.reorder ids).recipes, r.id ∈ ids →
      r.position = ((1 + ids.indexOf r.id : Nat) : ℚ) := by
  intro r hr hrid
  rw [reorder_recipes_eq st ids hids hst] at hr
  obtain ⟨x, hx, hxr⟩ := List.mem_map.mp hr
  by_cases hxi : x.id ∈ ids
  · rw [if_pos hxi] at hxr
    subst hxr
    simp
  · rw [if_neg hxi] at hxr
    subst hxr
    exact absurd hrid hxi

lemma id_mem_of_mem_reorder {st : Store} {ids : List Nat} {r : Recipe}
    (hall : ∀ r ∈ st.recipes, r.id ∈ ids)
    (hr : r ∈ (st.reorder ids).recipes) : r.id ∈ ids := by
  have h1 : r.id ∈ ((st.reorder ids).recipes).map Recipe.id :=
    List.mem_map_of_mem Recipe.id hr
  rw [reorder_map_id] at h1
  obtain ⟨x, hx, hxid⟩ := List.mem_map.mp h1
  exact hxid ▸ hall x hx

/-- C1: when the submitted id sequence covers exactly the ids in the store,
the reorder operation sets every recipe's position to the 1-based index of
its id in the sequence, and a subsequent list operation returns exactly the
recipes in the submitted order. -/
theorem c1_reorder_then_list (st : Store) (ids : List Nat)
    (hids : ids.Nodup) (hst : (st.recipes.map Recipe.id).Nodup)
    (hcov : ∀ i ∈ ids, st.hasId i = true)
    (hall : ∀ r ∈ st.recipes, r.id ∈ ids) :
    (∀ r ∈ (st.reorder ids).recipes,
        r.position = ((ids.indexOf r.id + 1 : Nat) : ℚ)) ∧
    (listOrdered (st.reorder ids)).map Recipe.id = ids := by
  constructor
  · intro r hr
    have hrid : r.id ∈ ids := id_mem_of_mem_reorder hall hr
    rw [reorder_position_mem st ids hids hst r hr hrid]
    exact congrArg Nat.cast (Nat.add_comm 1 (ids.indexOf r.id))
  · have hmain := reorder_filter_map_id st ids hids hst
    have hkept : ids.filter (fun i => st.hasId i) = ids :=
      List.filter_eq_self.mpr hcov
    have hLall : ∀ r ∈ listOrdered (st.reorder ids),
        (fun r => decide (r.id ∈ ids)) r = true := by
      intro r hr
      simp only [decide_eq_true_eq]
      have hr' : r ∈ (st.reorder ids).recipes := by
        have := hr
        unfold listOrdered at this
        exact (List.mem_insertionSort posLe).mp this
      exact id_mem_of_mem_reorder hall hr'
    rw [List.filter_eq_self.mpr hLall, hkept] at hmain
    exact hmain

/-- C1 witness: in the three-recipe store, reordering with [C, A, B] and then
listing yields exactly [C, A, B]. -/
theorem c1_witness :
    (listOrdered (demoStore.reorder [2, 0, 1])).map Recipe.id = [2, 0, 1] :=
  (c1_reorder_then_list demoStore [2, 0, 1] (by decide) (by decide)
    (by decide) (by decide)).2

/-- C2: for every create request, a violated field rule produces a 400
response carrying a violation that names the field, and a body passing
every rule never yields a 400 (the request reaches the store: it is
created or fails as a storage error). -/
theorem c2_create_validation (st : Store) (b : Body) (now : ℚ) :
    (validateRecipe b ≠ [] →
      (postRecipes st b now).1 = .invalid (validateRecipe b) ∧
      createStatus (postRecipes st b now).1 = 400) ∧
    (∀ r ∈ recipeRules, r.check b = false →
      (⟨r.field, r.msg⟩ : FieldError) ∈ validateRecipe b ∧
      createStatus (postRecipes st b now).1 = 400) ∧
    (validateRecipe b = [] →
      createStatus (postRecipes st b now).1 ≠ 400 ∧
      ((∃ r, (postRecipes st b now).1 = .created r) ∨
        (postRecipes st b now).1 = .storageError)) := by
  have hinv : validateRecipe b ≠ [] →
      postRecipes st b now = (.invalid (validateRecipe b), st) := by
    intro hne
    simp only [postRecipes, if_neg hne]
  refine ⟨?_, ?_, ?_⟩
  · intro hne
    rw [hinv hne]
    exact ⟨rfl, rfl⟩
  · intro r hr hc
    have hmem : (⟨r.field, r.msg⟩ : FieldError) ∈ validateRecipe b :=
      mem_runRules hr hc
    have hne : validateRecipe b ≠ [] := List.ne_nil_of_mem hmem
    rw [hinv hne]
    exact ⟨hmem, rfl⟩
  · intro he
    constructor
    · rcases hcb : castBody b with _ | dp
      · simp [postRecipes, he, hcb, createStatus]
      · obtain ⟨d, po⟩ := dp
        simp [postRecipes, he, hcb, createStatus]
    · rcases hcb : castBody b with _ | dp
      · right
        simp [postRecipes, he, hcb]
      · obtain ⟨d, po⟩ := dp
        left
        exact ⟨mkRecipe st.nextId d (po.getD now),
          by simp [postRecipes, he, hcb]⟩

/-- C2 witness: the spec's example body with an empty name yields a 400
whose violation names the name field. -/
theorem c2_witness :
    ((⟨"name", "Recipe name is required"⟩ : FieldError)
        ∈ validateRecipe exBadBody) ∧
      createStatus (postRecipes emptyStore exBadBody 7).1 = 400 :=
  (c2_create_validation emptyStore exBadBody 7).2.1
    ⟨"name", "Recipe name is required", fun b => checkNotEmptyTrim b.name⟩
    (List.Mem.head _) (by decide)

/-- C3: a sequence of creates with no intervening reorder appends the new
records in creation order; when the clock defaults supplied for position are
nondecreasing (Date.now never goes backwards) and do not precede the
positions already stored, listing returns the whole collection in creation
order, each new item sorting last. -/
theorem c3_create_monotone_order (st : Store) (items : List (Body × ℚ))
    (hval : ∀ x ∈ items, validateRecipe x.1 = [] ∧
      ∃ d, castBody x.1 = some (d, none))
    (hmono : List.Pairwise (fun a b => a ≤ b)
      (st.recipes.map Recipe.position ++ items.map Prod.snd)) :
    ∃ new : List Recipe,
      (postMany st items).recipes = st.recipes ++ new ∧
      new.map Recipe.position = items.map Prod.snd ∧
      listOrdered (postMany st items) = (postMany st items).recipes := by
  obtain ⟨new, hrec, hpos⟩ := postMany_valid items st hval
  refine ⟨new, hrec, hpos, ?_⟩
  apply listOrdered_eq_self
  have hmap : (postMany st items).recipes.map Recipe.position
      = st.recipes.map Recipe.position ++ items.map Prod.snd := by
    rw [hrec, List.map_append, hpos]
  rw [← hmap] at hmono
  exact (@List.pairwise_map Recipe ℚ Recipe.position (fun a b => a ≤ b) _).mp
    hmono

/-- C3 witness: three creates on the empty store with clock values 10, 20,
30 list back in creation order. -/
theorem c3_witness :
    listOrdered (postMany emptyStore [(okBody, 10), (okBody, 20), (okBody, 30)])
      = (postMany emptyStore
          [(okBody, 10), (okBody, 20), (okBody, 30)]).recipes := by
  obtain ⟨new, h1, h2, h3⟩ := c3_create_monotone_order emptyStore
    [(okBody, 10), (okBody, 20), (okBody, 30)]
    (by
      intro x hx
      fin_cases hx <;> exact ⟨rfl, dOk, rfl⟩)
    (by decide)
  exact h3

/-- C4: an update request with a valid, castable payload whose id matches
no stored record leaves the store unchanged and responds 404 (not found),
distinct from the 500 reserved for storage failures. -/
theorem c4_update_missing_id (st : Store) (i : Nat) (b : Body)
    (d : RecipeData) (po : Option ℚ)
    (hval : validateRecipe b = []) (hcast : castBody b = some (d, po))
    (habs : ∀ r ∈ st.recipes, r.id ≠ i) :
    putRecipes st i b = (.notFound, st) ∧
    updateStatus (putRecipes st i b).1 = 404 ∧
    updateStatus (putRecipes st i b).1 ≠ 500 := by
  have hfind : st.recipes.find? (fun r => r.id == i) = none := by
    rw [List.find?_eq_none]
    intro r hr
    simp [habs r hr]
  have hput : putRecipes st i b = (.notFound, st) := by
    simp [putRecipes, hval, hcast, hfind]
  refine ⟨hput, ?_, ?_⟩
  · rw [hput]
    rfl
  · rw [hput]
    simp [updateStatus]

/-- C4 witness: updating id 0 in the empty store with a valid body is a
404 and not a 500. -/
theorem c4_witness :
    putRecipes emptyStore 0 okBody = (.notFound, emptyStore) ∧
      updateStatus (putRecipes emptyStore 0 okBody).1 = 404 := by
  have h := c4_update_missing_id emptyStore 0 okBody dOk none rfl rfl
    (by decide)
  exact ⟨h.1, h.2.1⟩

/-- C5: a reorder whose orderedIds holds ids absent from the store still
succeeds with a 200 confirmation; the unknown ids are ignored, and the
recipes whose ids are present are listed in exactly the same relative
order as when the unknown ids are removed from the sequence. -/
theorem c5_reorder_unknown_ids (st : Store) (ids : List Nat)
    (hids : ids.Nodup) (hst : (st.recipes.map Recipe.id).Nodup)
    (_hunk : ∃ i ∈ ids, st.hasId i = false) :
    (postReorder st (some ids)).1 = .reordered ∧
    reorderStatus (postReorder st (some ids)).1 = 200 ∧
    ((listOrdered (st.reorder ids)).filter
        (fun r => decide (r.id ∈ ids))).map Recipe.id
      = ids.filter (fun i => st.hasId i) ∧
    ((listOrdered (st.reorder (ids.filter (fun i => st.hasId i)))).filter
        (fun r => decide (r.id ∈ ids.filter (fun i => st.hasId i)))).map
          Recipe.id
      = ids.filter (fun i => st.hasId i) := by
  refine ⟨rfl, rfl, reorder_filter_map_id st ids hids hst, ?_⟩
  have hids' : (ids.filter (fun i => st.hasId i)).Nodup :=
    List.Nodup.filter _ hids
  have h2 := reorder_filter_map_id st (ids.filter (fun i => st.hasId i))
    hids' hst
  have h3 : (ids.filter (fun i => st.hasId i)).filter (fun i => st.hasId i)
      = ids.filter (fun i => st.hasId i) :=
    List.filter_eq_self.mpr (fun a ha => (List.mem_filter.mp ha).2)
  rw [h3] at h2
  exact h2

/-- C5 witness: reorder of the three-recipe store with the unknown id 99 in
front still lists the two mentioned present recipes as [C, A], the same as
reordering with [C, A] alone. -/
theorem c5_witness :
    (postReorder demoStore (some [99, 2, 0])).1 = .reordered ∧
    ((listOrdered (demoStore.reorder [99, 2, 0])).filter
        (fun r => decide (r.id ∈ [99, 2, 0]))).map Recipe.id = [2, 0] := by
  have h := c5_reorder_unknown_ids demoStore [99, 2, 0] (by decide)
    (by decide) ⟨99, by decide, by decide⟩
  exact ⟨h.1, h.2.2.1.trans (by decide)⟩

/-- C6 counterexample: the list route of src/server.js (line 49) answers a
storage error, here with underlying message "db down", with a body whose
error field is absent; the 500 body is a message alone, so it does not
contain the underlying error detail the claim requires. -/
theorem c6_counterexample :
    (listCatchMain "db down").error = none ∧
      listCatchMain "db down" = ⟨"Server error", none⟩ :=
  ⟨rfl, rfl⟩

/-- C6 as amended: the list route of the src/unnamed/part_000 variant
responds to a storage error with both a message and the underlying error
detail, while the src/server.js variant responds with a message alone. -/
theorem c6_list_error_detail (m : String) :
    (listCatchAlt m).message = "Failed to fetch recipes" ∧
    (listCatchAlt m).error = some m ∧
    (listCatchMain m).error = none :=
  ⟨rfl, rfl, rfl⟩

/-- C7: validation evaluates every rule independently and returns the full
ordered list of violations, one per violated rule, each naming its field;
it never short-circuits, and the result is empty exactly when every rule
passes. -/
theorem c7_validators_collect_all (b : Body) :
    validateRecipe b
      = (recipeRules.filter (fun r => !(r.check b))).map
          (fun r => (⟨r.field, r.msg⟩ : FieldError)) ∧
    (∀ r ∈ recipeRules, r.check b = false →
      (⟨r.field, r.msg⟩ : FieldError) ∈ validateRecipe b) ∧
    (validateRecipe b).length
      = (recipeRules.filter (fun r => !(r.check b))).length ∧
    (validateRecipe b = [] ↔ ∀ r ∈ recipeRules, r.check b = true) := by
  refine ⟨runRules_eq_filter recipeRules b, ?_, ?_,
    runRules_nil_iff recipeRules b⟩
  · intro r hr hc
    exact mem_runRules hr hc
  · exact (congrArg List.length (runRules_eq_filter recipeRules b)).trans
      (List.length_map _ _)

/-- C7 witness: a body with a blank name and zero servings collects both
violations, in rule order, with no short-circuit after the first. -/
theorem c7_witness :
    validateRecipe twoBadBody
        = [⟨"name", "Recipe name is required"⟩,
           ⟨"servings", "Valid servings number is required"⟩] ∧
      (⟨"servings", "Valid servings number is required"⟩ : FieldError)
        ∈ validateRecipe twoBadBody := by
  have h := c7_validators_collect_all twoBadBody
  constructor
  · rw [h.1]
    decide
  · exact h.2.1
      ⟨"servings", "Valid servings number is required",
        fun b => checkIntMin1 b.servings⟩
      (by simp [recipeRules]) (by decide)

/-- C8: reorder is a pure positional update; every field of every stored
recipe other than position (id, name, cuisine, instructions, ingredients,
image, prepTimeMinutes, cookTimeMinutes, servings, tags) is unchanged, in
unchanged store order. -/
theorem c8_reorder_frame (st : Store) (ids : List Nat) :
    ((st.reorder ids).recipes).map recipeContent
      = st.recipes.map recipeContent :=
  reorder_map_content st ids

/-- C9: creating a recipe from a valid payload whose ingredients are the
strings xs stores exactly xs, and reading the record back out of the list
response returns it unchanged, ingredients order and values intact. -/
theorem c9_ingredients_roundtrip (st : Store) (b : Body) (now : ℚ)
    (xs : List String) (d : RecipeData) (po : Option ℚ)
    (hst : (st.recipes.map Recipe.id).Nodup)
    (hfresh : ∀ r ∈ st.recipes, r.id ≠ st.nextId)
    (hval : validateRecipe b = [])
    (hing : b.ingredients = some (.jarr (xs.map JVal.jstr)))
    (hcast : castBody b = some (d, po)) :
    ∃ r : Recipe, (postRecipes st b now).1 = .created r ∧
      r.ingredients = xs ∧
      (listOrdered (postRecipes st b now).2).find? (fun x => x.id == r.id)
        = some r := by
  have hparts := castBody_parts hcast
  have hdi : d.ingredients = xs := by
    have h1 := hparts.1
    rw [hing] at h1
    have h2 : castField castStringList (some (JVal.jarr (xs.map JVal.jstr)))
        = some xs := castAll_jstr xs
    rw [h2] at h1
    exact (Option.some_inj.mp h1).symm
  have hpost : postRecipes st b now
      = (.created (mkRecipe st.nextId d (po.getD now)),
          ⟨st.recipes ++ [mkRecipe st.nextId d (po.getD now)],
            st.nextId + 1⟩) := by
    simp [postRecipes, hval, hcast]
  refine ⟨mkRecipe st.nextId d (po.getD now), ?_, hdi, ?_⟩
  · rw [hpost]
  · rw [hpost]
    apply find?_listOrdered
    · show ((st.recipes ++ [mkRecipe st.nextId d (po.getD now)]).map
        Recipe.id).Nodup
      rw [List.map_append, List.nodup_append]
      refine ⟨hst, List.nodup_singleton _, ?_⟩
      intro a ha hb
      have hb' : a = st.nextId := by
        simpa [mkRecipe] using hb
      obtain ⟨x, hx, hxa⟩ := List.mem_map.mp ha
      exact hfresh x hx (by rw [hxa, hb'])
    · exact List.mem_append_right _ (List.mem_singleton.mpr rfl)

/-- C9 witness: creating okBody (ingredients a then b) in the empty store
stores ingredients [a, b] and the created record reads back from the list
unchanged. -/
theorem c9_witness :
    ∃ r : Recipe, (postRecipes emptyStore okBody 7).1 = .created r ∧
      r.ingredients = ["a", "b"] ∧
      (listOrdered (postRecipes emptyStore okBody 7).2).find?
        (fun x => x.id == r.id) = some r :=
  c9_ingredients_roundtrip emptyStore okBody 7 ["a", "b"] dOk none
    (by decide) (by decide) (by decide) rfl rfl

/-- C10: the create handler hands the request body to the store unchanged,
so a create request carrying a numeric position field stores that
client-supplied position instead of the clock default. -/
theorem c10_client_position (st : Store) (b : Body) (now q : ℚ)
    (d : RecipeData) (po : Option ℚ)
    (hval : validateRecipe b = [])
    (hpos : b.position = some (.jnum q))
    (hcast : castBody b = some (d, po)) :
    ∃ r : Recipe, (postRecipes st b now).1 = .created r ∧ r.position = q := by
  have hparts := castBody_parts hcast
  have hpo : po = some q := by
    have h1 := hparts.2
    rw [hpos] at h1
    simp [castPos, castNumber] at h1
    exact h1.symm
  subst hpo
  refine ⟨mkRecipe st.nextId d ((some q).getD now), ?_, rfl⟩
  simp [postRecipes, hval, hcast]

/-- C10 witness: creating posBody (position 42) with clock default 7 stores
position 42, not 7. -/
theorem c10_witness :
    ∃ r : Recipe, (postRecipes emptyStore posBody 7).1 = .created r ∧
      r.position = 42 :=
  c10_client_position emptyStore posBody 7 42 dOk (some 42) (by decide)
    rfl rfl
